import Mathlib

/-!
Verification of the PPI-finder detection engine (`ppi_finder.py`).

This file gives a shallow embedding of the `PpiFinder` class: the five
per-value detectors (`contains_uhl_system_number`, `contains_postcode`,
`contains_nhs_number`, `contains_dob`, `contains_name`), the NHS checksum
(`calculate_nhs_number_checksum`), the date disambiguator (`parse_date`),
and the scanning loop (`analyse`), together with theorems about the
specification claims.

Modelling conventions:
  - Python strings are `String`/`List Char`; the regex character classes
    `\d`, `\w`, `\W`, `\s` are modelled over their ASCII fragments (all
    inputs relevant to the claims are ASCII).
  - Machine integers do not occur; Python's unbounded ints are `Nat`.
  - `datetime.date` values are `SDate` (year/month/day as `Nat`).
  - Fallible Python code (`KeyError`, `ValueError`, ...) is `Except Unit`.
  - The external `dateutil.parser.parse` fallback is a parameter
    `fb : String → Option SDate` (`none` = the parser raises).
  - `datetime.utcnow().date()` is an explicit `today : SDate` parameter.
-/

/-- Digit value of an ASCII digit character (Python `int(j)` on a digit). -/
def digitVal (c : Char) : Nat := c.toNat - 48

/-- The ASCII digit character for `n < 10`. -/
def digitChar (n : Nat) : Char := Char.ofNat (48 + n)

/-- Calendar date as carried by Python `datetime.date` (year, month, day). -/
structure SDate where
  year : Nat
  month : Nat
  day : Nat
deriving DecidableEq

/-- Python `date < date` comparison: lexicographic on (year, month, day). -/
def SDate.ltB (a b : SDate) : Bool :=
  decide (a.year < b.year) ||
    (decide (a.year = b.year) &&
      (decide (a.month < b.month) ||
        (decide (a.month = b.month) && decide (a.day < b.day))))

/-- Gregorian leap-year rule, as used by Python's `datetime`/`dateutil`. -/
def isLeap (y : Nat) : Bool := y % 4 == 0 && (y % 100 != 0 || y % 400 == 0)

/-- Number of days in a month, as used by Python's `calendar`/`dateutil`. -/
def daysInMonth (y m : Nat) : Nat :=
  if m = 2 then (if isLeap y then 29 else 28)
  else if m = 4 ∨ m = 6 ∨ m = 9 ∨ m = 11 then 30
  else 31

/-- Python `some_date - relativedelta(years=n)`: subtract `n` from the year
and clamp the day to the last day of the resulting month (Feb 29 → Feb 28).
Python would raise below year 1; `Nat` subtraction truncates instead, which is
unreachable for `utcnow()`-derived dates. -/
def subYears (d : SDate) (n : Nat) : SDate :=
  ⟨d.year - n, d.month, min d.day (daysInMonth (d.year - n) d.month)⟩

/-- Validity of (y, m, d) as a Python `datetime.date` constructor argument
(`date(y, m, d)` raises `ValueError` outside these bounds). -/
def validDate (y m d : Nat) : Bool :=
  decide (1 ≤ y) && decide (y ≤ 9999) && decide (1 ≤ m) && decide (m ≤ 12) &&
    decide (1 ≤ d) && decide (d ≤ daysInMonth y m)

/-- Two-digit zero-padded rendering of `n % 100`. -/
def pad2 (n : Nat) : List Char := [digitChar (n / 10 % 10), digitChar (n % 10)]

/-- Four-digit zero-padded rendering of `n % 10000`. -/
def pad4 (n : Nat) : List Char :=
  [digitChar (n / 1000 % 10), digitChar (n / 100 % 10),
   digitChar (n / 10 % 10), digitChar (n % 10)]

/-- A cell value as handed to the detectors: a string, a `datetime.date`,
a `datetime.datetime` (the claims never inspect its time-of-day, which the
code truncates on every path, so only the date part is carried), or null.
The CSV front-end yields strings and `None`. -/
inductive Value where
  | null : Value
  | str : String → Value
  | ddate : SDate → Value
  | dtime : SDate → Value

/-- Python truthiness (`if not value`) for the cell-value variants:
`None` and the empty string are falsy, dates are always truthy. -/
def pyTruthy : Value → Bool
  | .null => false
  | .str s => !s.data.isEmpty
  | .ddate _ => true
  | .dtime _ => true

/-- Python `str(value)` for the cell-value variants (dates render in ISO
form; `datetime` values in the model always carry midnight). -/
def pyStr : Value → String
  | .null => "None"
  | .str s => s
  | .ddate d => String.mk (pad4 d.year ++ ['-'] ++ pad2 d.month ++ ['-'] ++ pad2 d.day)
  | .dtime d => String.mk (pad4 d.year ++ ['-'] ++ pad2 d.month ++ ['-'] ++ pad2 d.day
      ++ " 00:00:00".data)

/-! ## NHS number checksum (`calculate_nhs_number_checksum`, lines 156-162) -/

/-- The weighted sum `char_total` of `calculate_nhs_number_checksum`:
`sum(int(j) * (11 - (i + 1)) for i, j in enumerate(nhs_number[:9]))`. -/
def charTotal (cs : List Char) : Nat :=
  ((cs.take 9).enum.map (fun p => digitVal p.2 * (11 - (p.1 + 1)))).sum

/-- `PpiFinder.calculate_nhs_number_checksum`: returns
`str(11 - char_total % 11)` unless that value is 11, in which case `'0'`.
Note the result is a (possibly two-character) string. -/
def calculate_nhs_number_checksum (cs : List Char) : String :=
  if 11 - charTotal cs % 11 ≠ 11 then toString (11 - charTotal cs % 11) else "0"

/-- The acceptance test applied to a normalized (divider-stripped) candidate
in `contains_nhs_number` line 141:
`self.calculate_nhs_number_checksum(m) == m[9]`. -/
def nhsCandidateAccepted (cs : List Char) : Bool :=
  calculate_nhs_number_checksum cs == (cs.getD 9 ' ').toString

/-- Weighted sum from the specification's words: weights [10,9,8,7,6,5,4,3,2]
applied left to right to the first nine digits. -/
def specWeightedSum (ds : List Nat) : Nat :=
  (List.zipWith (· * ·) [10, 9, 8, 7, 6, 5, 4, 3, 2] ds).sum

/-- Check digit from the specification's words: `11 − (S mod 11)`, with a
computed value of 11 mapping to check digit 0 (a computed value of 10 is kept
as 10, which no decimal digit equals). -/
def specNhsCheckDigit (ds : List Nat) : Nat :=
  if 11 - specWeightedSum ds % 11 = 11 then 0 else 11 - specWeightedSum ds % 11

lemma char_digit_bounds {c : Char} (h : c.isDigit = true) :
    48 ≤ c.toNat ∧ c.toNat ≤ 57 := by
  simp [Char.isDigit] at h
  exact ⟨h.1, h.2⟩

lemma digitVal_lt_ten {c : Char} (h : c.isDigit = true) : digitVal c < 10 := by
  obtain ⟨h1, h2⟩ := char_digit_bounds h
  simp only [digitVal]
  omega

lemma toString_digit {c : Char} (h : c.isDigit = true) :
    c.toString = toString (digitVal c) := by
  obtain ⟨h1, h2⟩ := char_digit_bounds h
  have : c = Char.ofNat c.toNat := by rw [Char.ofNat_toNat]
  rw [this]
  interval_cases h' : c.toNat <;> rfl

lemma checkString_eq_iff (chk d : Nat) (h1 : 1 ≤ chk) (h2 : chk ≤ 11)
    (hd : d < 10) :
    (((if chk ≠ 11 then toString chk else "0") == toString d) = true) ↔
      ((if chk = 11 then 0 else chk) = d) := by
  interval_cases chk <;> interval_cases d <;> decide

lemma nhsAccept_iff (c0 c1 c2 c3 c4 c5 c6 c7 c8 c9 : Char)
    (h : ∀ c ∈ [c0, c1, c2, c3, c4, c5, c6, c7, c8, c9], c.isDigit = true) :
    (nhsCandidateAccepted [c0, c1, c2, c3, c4, c5, c6, c7, c8, c9] = true ↔
      specNhsCheckDigit ([c0, c1, c2, c3, c4, c5, c6, c7, c8, c9].map digitVal)
        = digitVal c9) := by
  simp only [List.mem_cons, List.not_mem_nil, or_false, forall_eq_or_imp,
    forall_eq] at h
  obtain ⟨h0, h1, h2, h3, h4, h5, h6, h7, h8, h9⟩ := h
  have hS : charTotal [c0, c1, c2, c3, c4, c5, c6, c7, c8, c9] =
      specWeightedSum ([c0, c1, c2, c3, c4, c5, c6, c7, c8, c9].map digitVal) := by
    simp [charTotal, specWeightedSum, List.enum, List.enumFrom]
    ring
  have hget : ([c0, c1, c2, c3, c4, c5, c6, c7, c8, c9].getD 9 ' ') = c9 := rfl
  unfold nhsCandidateAccepted calculate_nhs_number_checksum specNhsCheckDigit
  rw [hget, toString_digit h9, hS]
  have hmod : specWeightedSum ([c0, c1, c2, c3, c4, c5, c6, c7, c8, c9].map digitVal)
      % 11 < 11 := Nat.mod_lt _ (by omega)
  exact checkString_eq_iff _ _ (by omega) (by omega) (digitVal_lt_ten h9)

/-- C1: for every 10-digit candidate (given by its ten digit characters),
the checksum comparison of `contains_nhs_number` (line 141) accepts exactly
when the specification's check digit — `11 − (S mod 11)` over weights
[10,9,8,7,6,5,4,3,2], with a computed 11 mapping to check digit 0 — equals
the tenth digit. A computed value of 10 equals no decimal digit, so such
candidates are always rejected. -/
theorem nhs_checksum_accepts_iff_spec (c0 c1 c2 c3 c4 c5 c6 c7 c8 c9 : Char)
    (h : ∀ c ∈ [c0, c1, c2, c3, c4, c5, c6, c7, c8, c9], c.isDigit = true) :
    (nhsCandidateAccepted [c0, c1, c2, c3, c4, c5, c6, c7, c8, c9] = true ↔
      specNhsCheckDigit ([c0, c1, c2, c3, c4, c5, c6, c7, c8, c9].map digitVal)
        = digitVal c9) :=
  nhsAccept_iff c0 c1 c2 c3 c4 c5 c6 c7 c8 c9 h

/-- Witness for C1 at the specification's example `9434765919`
(weighted sum 299, 299 mod 11 = 2, check digit 9 = tenth digit). -/
theorem nhs_checksum_accepts_iff_spec_witness :
    nhsCandidateAccepted ['9', '4', '3', '4', '7', '6', '5', '9', '1', '9'] = true :=
  (nhs_checksum_accepts_iff_spec '9' '4' '3' '4' '7' '6' '5' '9' '1' '9'
    (by decide)).mpr (by decide)

/-- C2: a 10-digit candidate whose computed check value `11 − (S mod 11)`
equals 10 is rejected by the checksum comparison of `contains_nhs_number`,
whatever its tenth digit is; the rejection is an ordinary `false` of the
total acceptance function, not an error. -/
theorem nhs_check_ten_rejected (c0 c1 c2 c3 c4 c5 c6 c7 c8 c9 : Char)
    (h : ∀ c ∈ [c0, c1, c2, c3, c4, c5, c6, c7, c8, c9], c.isDigit = true)
    (h10 : 11 - specWeightedSum
        ([c0, c1, c2, c3, c4, c5, c6, c7, c8, c9].map digitVal) % 11 = 10) :
    nhsCandidateAccepted [c0, c1, c2, c3, c4, c5, c6, c7, c8, c9] = false := by
  have hiff := nhsAccept_iff c0 c1 c2 c3 c4 c5 c6 c7 c8 c9 h
  have h9 : c9.isDigit = true := by
    have := h c9 (by simp)
    exact this
  have hd : digitVal c9 < 10 := digitVal_lt_ten h9
  have hspec : specNhsCheckDigit
      ([c0, c1, c2, c3, c4, c5, c6, c7, c8, c9].map digitVal) = 10 := by
    unfold specNhsCheckDigit
    rw [h10]
    simp
  rcases hb : nhsCandidateAccepted [c0, c1, c2, c3, c4, c5, c6, c7, c8, c9] with _ | _
  · rfl
  · exfalso
    have := hiff.mp hb
    rw [hspec] at this
    omega

/-- Witness for C2 at the candidate `0000000063`: its weighted sum is 12,
12 mod 11 = 1, so the computed check value is 10 and the candidate is
rejected although it is a well-formed 10-digit string. -/
theorem nhs_check_ten_rejected_witness :
    nhsCandidateAccepted ['0', '0', '0', '0', '0', '0', '0', '0', '6', '3'] = false :=
  nhs_check_ten_rejected '0' '0' '0' '0' '0' '0' '0' '0' '6' '3'
    (by decide) (by decide)

/-! ## The ANSI date pattern (`re_ansi_dates`, line 57) and `parse_date`

`re_ansi_dates` is
`(?P<year>\d{4})[\\ -]?(?P<month>\d{2})[\\ -]?(?P<day>\d{2})`
`(?:[ T]\d{2}:\d{2}:\d{2})?(?:\.\d+)?(?:[+-]\d{2}:\d{2})?`
used with `fullmatch`. The first-character sets of the three optional tail
groups (`[ T]`, `.`, `[+-]`) are pairwise disjoint and disjoint from the
end of input, and the separator class `[\\ -]` is disjoint from `\d`, so
backtracking never changes the outcome and the pattern is equivalent to the
deterministic left-to-right parser below. -/

/-- The optional-separator class `[\\ -]` of `re_ansi_dates`. -/
def isAnsiSep (c : Char) : Bool := c = '\\' || c = ' ' || c = '-'

/-- Read exactly `n` ASCII digits, accumulating their value. -/
def readDigits : Nat → Nat → List Char → Option (Nat × List Char)
  | 0, acc, cs => some (acc, cs)
  | _ + 1, _, [] => none
  | n + 1, acc, c :: cs =>
    if c.isDigit then readDigits n (acc * 10 + digitVal c) cs else none

/-- Consume one optional separator `[\\ -]?`. -/
def skipSep : List Char → List Char
  | [] => []
  | c :: cs => if isAnsiSep c then cs else c :: cs

/-- The optional time group `(?:[ T]\d{2}:\d{2}:\d{2})?` of a full match. -/
def parseTimeOpt : List Char → Option (List Char)
  | [] => some []
  | c :: cs =>
    if c = ' ' || c = 'T' then
      match readDigits 2 0 cs with
      | none => none
      | some (_, r) =>
        match r with
        | ':' :: r =>
          (match readDigits 2 0 r with
           | none => none
           | some (_, r) =>
             match r with
             | ':' :: r =>
               (match readDigits 2 0 r with
                | none => none
                | some (_, r) => some r)
             | _ => none)
        | _ => none
    else some (c :: cs)

/-- The optional fractional-seconds group `(?:\.\d+)?` of a full match. -/
def parseFracOpt : List Char → Option (List Char)
  | [] => some []
  | c :: cs =>
    if c = '.' then
      if (cs.takeWhile Char.isDigit).isEmpty then none
      else some (cs.dropWhile Char.isDigit)
    else some (c :: cs)

/-- The optional UTC-offset group `(?:[+-]\d{2}:\d{2})?` of a full match. -/
def parseOffsetOpt : List Char → Option (List Char)
  | [] => some []
  | c :: cs =>
    if c = '+' || c = '-' then
      match readDigits 2 0 cs with
      | none => none
      | some (_, r) =>
        match r with
        | ':' :: r =>
          (match readDigits 2 0 r with
           | none => none
           | some (_, r) => some r)
        | _ => none
    else some (c :: cs)

/-- `re_ansi_dates.fullmatch` over a character list: the captured
(year, month, day) groups, or `none` when the whole value does not match. -/
def parseAnsiList (cs : List Char) : Option (Nat × Nat × Nat) :=
  match readDigits 4 0 cs with
  | none => none
  | some (y, r) =>
    match readDigits 2 0 (skipSep r) with
    | none => none
    | some (m, r) =>
      match readDigits 2 0 (skipSep r) with
      | none => none
      | some (d, r) =>
        match parseTimeOpt r with
        | none => none
        | some r =>
          match parseFracOpt r with
          | none => none
          | some r =>
            match parseOffsetOpt r with
            | none => none
            | some r => if r = [] then some (y, m, d) else none

/-- `re_ansi_dates.fullmatch` over a string. -/
def parseAnsiStr (s : String) : Option (Nat × Nat × Nat) :=
  parseAnsiList s.data

/-- Python whitespace stripped by `float()` (ASCII fragment). -/
def isPySpace (c : Char) : Bool :=
  c = ' ' || c = '\t' || c = '\n' || c = '\r' || c = '\x0b' || c = '\x0c'

/-- Numeric value of a digit-character list (most significant first). -/
def natOfDigits (cs : List Char) : Nat :=
  cs.foldl (fun acc c => acc * 10 + digitVal c) 0

/-- Python `float(value)` on the fragment the scanner can meet: optional
surrounding whitespace, optional sign, decimal digits with an optional
single decimal point. Exponents, `inf`/`nan` and digit underscores are not
modelled; `none` means `float()` raises `ValueError`. -/
def pyFloat (s : String) : Option Rat :=
  let cs := ((s.data.dropWhile isPySpace).reverse.dropWhile isPySpace).reverse
  let signed : Bool × List Char :=
    match cs with
    | '+' :: r => (false, r)
    | '-' :: r => (true, r)
    | _ => (false, cs)
  let ip := signed.2.takeWhile Char.isDigit
  let rest := signed.2.dropWhile Char.isDigit
  let mag : Option Rat :=
    match rest with
    | [] => if ip.isEmpty then none else some ((natOfDigits ip : Nat) : Rat)
    | '.' :: fr =>
      if fr.all Char.isDigit && !(ip.isEmpty && fr.isEmpty) then
        some ((natOfDigits ip : Nat) + ((natOfDigits fr : Nat) : Rat)
          / ((10 : Rat) ^ fr.length))
      else none
    | _ => none
  mag.map (fun q => if signed.1 then -q else q)

/-- The call `parse(value, dayfirst=True)` of `parse_date` line 193 followed
by `.date()`: the external `dateutil` fallback parser is a parameter `fb`;
`fb s = none` models the parser raising, which `parse_date` propagates. -/
def parseFallback (fb : String → Option SDate) (s : String) :
    Except Unit (Option SDate) :=
  match fb s with
  | some d => .ok (some d)
  | none => .error ()

/-- `PpiFinder.parse_date` (lines 164-195). Returns `.ok none` for the
falsy-value and out-of-range-number early exits, `.ok (some d)` for a parsed
date, and `.error ()` when the Python code would raise (invalid
year/month/day components on the ANSI path, or a fallback-parser failure).
Note the numeric guard: a value whose `float` is NOT strictly between
1,000,000 and 100,000,000 returns `None`; a value inside that range falls
through to the fallback parser. -/
def parse_date (fb : String → Option SDate) (v : Value) :
    Except Unit (Option SDate) :=
  if !pyTruthy v then .ok none
  else
    match v with
    | .dtime d => .ok (some d)
    | .ddate d => .ok (some d)
    | _ =>
      let s := pyStr v
      match parseAnsiStr s with
      | some (y, m, d) =>
        if validDate y m d then .ok (some ⟨y, m, d⟩) else .error ()
      | none =>
        match pyFloat s with
        | some f =>
          if 1000000 < f ∧ f < 100000000 then parseFallback fb s
          else .ok none
        | none => parseFallback fb s

/-- `PpiFinder.contains_dob` (lines 144-154): parse the value (any raised
exception is caught and yields `False`), then flag exactly when the date is
strictly between `today − 130 years` and `today − 10 years`. -/
def contains_dob (fb : String → Option SDate) (today : SDate) (v : Value) :
    Bool :=
  match parse_date fb v with
  | .error _ => false
  | .ok none => false
  | .ok (some d) =>
    SDate.ltB (subYears today 130) d && SDate.ltB d (subYears today 10)

/-- Rendering of a date in the ANSI full-match form `YYYYMMDD`
(zero-padded, no separators), e.g. `19800115`. -/
def renderAnsi (y m d : Nat) : String :=
  String.mk (pad4 y ++ (pad2 m ++ pad2 d))

/-- A fallback parser that always raises; used to instantiate theorems at
concrete inputs whose evaluation never reaches the fallback. -/
def fbNone : String → Option SDate := fun _ => none

lemma isDigit_digitChar {k : Nat} (hk : k < 10) : (digitChar k).isDigit = true := by
  interval_cases k <;> decide

lemma digitVal_digitChar {k : Nat} (hk : k < 10) : digitVal (digitChar k) = k := by
  interval_cases k <;> decide

lemma notSep_digitChar {k : Nat} (hk : k < 10) : isAnsiSep (digitChar k) = false := by
  interval_cases k <;> decide

lemma readDigits_succ (n acc : Nat) {k : Nat} (hk : k < 10) (r : List Char) :
    readDigits (n + 1) acc (digitChar k :: r) = readDigits n (acc * 10 + k) r := by
  simp [readDigits, isDigit_digitChar hk, digitVal_digitChar hk]

lemma readDigits_pad4 {y : Nat} (hy : y ≤ 9999) (r : List Char) :
    readDigits 4 0 (pad4 y ++ r) = some (y, r) := by
  have k1 : y / 1000 % 10 < 10 := Nat.mod_lt _ (by omega)
  have k2 : y / 100 % 10 < 10 := Nat.mod_lt _ (by omega)
  have k3 : y / 10 % 10 < 10 := Nat.mod_lt _ (by omega)
  have k4 : y % 10 < 10 := Nat.mod_lt _ (by omega)
  show readDigits (3 + 1) 0 (digitChar (y / 1000 % 10) :: (digitChar (y / 100 % 10) ::
    (digitChar (y / 10 % 10) :: (digitChar (y % 10) :: r)))) = some (y, r)
  rw [readDigits_succ _ _ k1, readDigits_succ _ _ k2, readDigits_succ _ _ k3,
    readDigits_succ _ _ k4]
  simp [readDigits]
  omega

lemma readDigits_pad2 {m : Nat} (hm : m ≤ 99) (r : List Char) :
    readDigits 2 0 (pad2 m ++ r) = some (m, r) := by
  have k1 : m / 10 % 10 < 10 := Nat.mod_lt _ (by omega)
  have k2 : m % 10 < 10 := Nat.mod_lt _ (by omega)
  show readDigits (1 + 1) 0 (digitChar (m / 10 % 10) :: (digitChar (m % 10) :: r))
    = some (m, r)
  rw [readDigits_succ _ _ k1, readDigits_succ _ _ k2]
  simp [readDigits]
  omega

lemma daysInMonth_le_31 (y m : Nat) : daysInMonth y m ≤ 31 := by
  unfold daysInMonth
  split
  · split <;> omega
  · split <;> omega

lemma parseAnsi_render {y m d : Nat} (hy : y ≤ 9999) (hm : m ≤ 99) (hd : d ≤ 99) :
    parseAnsiList (pad4 y ++ (pad2 m ++ pad2 d)) = some (y, m, d) := by
  have hm1 : m / 10 % 10 < 10 := Nat.mod_lt _ (by omega)
  have hd1 : d / 10 % 10 < 10 := Nat.mod_lt _ (by omega)
  have e1 : skipSep (pad2 m ++ pad2 d) = pad2 m ++ pad2 d := by
    simp [pad2, skipSep, notSep_digitChar hm1]
  have e2 : skipSep (pad2 d) = pad2 d := by
    simp [pad2, skipSep, notSep_digitChar hd1]
  have e3 : readDigits 2 0 (pad2 d) = some (d, []) := by
    have := readDigits_pad2 hd ([] : List Char)
    simpa using this
  simp only [parseAnsiList, readDigits_pad4 hy, e1, readDigits_pad2 hm, e2, e3,
    parseTimeOpt, parseFracOpt, parseOffsetOpt]
  simp

/-- C7: a value rendered in the ANSI full-match form `YYYYMMDD` from any
valid date is parsed by `parse_date` back to exactly that date, for every
behaviour `fb` of the general-purpose fallback parser — the day-first-biased
fallback is never consulted on this path. -/
theorem parse_date_ansi_roundtrip (fb : String → Option SDate) (y m d : Nat)
    (h : validDate y m d = true) :
    parse_date fb (Value.str (renderAnsi y m d)) = .ok (some ⟨y, m, d⟩) := by
  have h' := h
  simp only [validDate, Bool.and_eq_true, decide_eq_true_eq] at h'
  obtain ⟨⟨⟨⟨⟨hy1, hy2⟩, hm1⟩, hm2⟩, hd1⟩, hd2⟩ := h'
  have hd31 : d ≤ 31 := le_trans hd2 (daysInMonth_le_31 y m)
  have htr : pyTruthy (Value.str (renderAnsi y m d)) = true := by
    simp [pyTruthy, renderAnsi, pad4]
  have hansi : parseAnsiStr (renderAnsi y m d) = some (y, m, d) := by
    show parseAnsiList (pad4 y ++ (pad2 m ++ pad2 d)) = some (y, m, d)
    exact parseAnsi_render hy2 (by omega) (by omega)
  simp [parse_date, htr, pyStr, hansi, h]

/-- Witness for C7: `19800115` is recovered as 1980-01-15 even when the
fallback parser is replaced by an adversarial day-first parser that would
answer 2015-01-19. -/
theorem parse_date_ansi_roundtrip_witness :
    parse_date (fun _ => some ⟨2015, 1, 19⟩) (Value.str (renderAnsi 1980 1 15))
      = .ok (some ⟨1980, 1, 15⟩) :=
  parse_date_ansi_roundtrip (fun _ => some ⟨2015, 1, 19⟩) 1980 1 15 (by decide)

lemma SDate.ltB_irrefl (d : SDate) : SDate.ltB d d = false := by
  simp [SDate.ltB]

/-- C4: whenever `parse_date` succeeds with a date `d`, `contains_dob` flags
the value exactly when `today − 130 years < d < today − 10 years` with both
bounds strict; in particular dates exactly 10 or exactly 130 years before
today are not flagged. -/
theorem contains_dob_range (fb : String → Option SDate) (today : SDate)
    (v : Value) (d : SDate) (h : parse_date fb v = .ok (some d)) :
    (contains_dob fb today v = true ↔
      (SDate.ltB (subYears today 130) d = true ∧
        SDate.ltB d (subYears today 10) = true))
    ∧ (d = subYears today 10 → contains_dob fb today v = false)
    ∧ (d = subYears today 130 → contains_dob fb today v = false) := by
  unfold contains_dob
  rw [h]
  refine ⟨by simp [Bool.and_eq_true], ?_, ?_⟩
  · intro hd
    subst hd
    simp [SDate.ltB_irrefl]
  · intro hd
    subst hd
    simp [SDate.ltB_irrefl]

/-- Witness for C4 at value `19800115` and evaluation date 1991-01-01: the
flag is equivalent to the strict range test, and the two exact boundary
dates are not flagged. -/
theorem contains_dob_range_witness :
    (contains_dob fbNone ⟨1991, 1, 1⟩ (Value.str "19800115") = true ↔
      (SDate.ltB (subYears ⟨1991, 1, 1⟩ 130) ⟨1980, 1, 15⟩ = true ∧
        SDate.ltB (⟨1980, 1, 15⟩ : SDate) (subYears ⟨1991, 1, 1⟩ 10) = true))
    ∧ ((⟨1980, 1, 15⟩ : SDate) = subYears ⟨1991, 1, 1⟩ 10 →
        contains_dob fbNone ⟨1991, 1, 1⟩ (Value.str "19800115") = false)
    ∧ ((⟨1980, 1, 15⟩ : SDate) = subYears ⟨1991, 1, 1⟩ 130 →
        contains_dob fbNone ⟨1991, 1, 1⟩ (Value.str "19800115") = false) :=
  contains_dob_range fbNone ⟨1991, 1, 1⟩ (Value.str "19800115") ⟨1980, 1, 15⟩
    rfl

/-- C3 (amended): the numeric guard of `parse_date` (lines 185-190) skips
the date interpretation for string values whose `float` value is NOT
strictly between 1,000,000 and 100,000,000 (and that are not ANSI full
matches): `parse_date` returns `None` and the DOB detector answers `false`.
Values whose `float` value IS inside that range fall through to the
fallback text parser instead. -/
theorem numeric_guard_skips_out_of_range (fb : String → Option SDate)
    (s : String) (q : Rat) (hf : pyFloat s = some q)
    (hr : ¬(1000000 < q ∧ q < 100000000)) (hansi : parseAnsiStr s = none) :
    parse_date fb (Value.str s) = .ok none ∧
      ∀ today, contains_dob fb today (Value.str s) = false := by
  have hs : ¬s.data.isEmpty = true := by
    intro he
    rw [List.isEmpty_iff] at he
    have : pyFloat s = none := by simp [pyFloat, he]
    rw [this] at hf
    exact Option.noConfusion hf
  have htr : pyTruthy (Value.str s) = true := by
    simp [pyTruthy]
    intro he
    exact hs (by simp [he])
  have hpd : parse_date fb (Value.str s) = .ok none := by
    simp [parse_date, htr, pyStr, hansi, hf, hr]
  exact ⟨hpd, fun today => by simp [contains_dob, hpd]⟩

/-- Witness for the amended C3 at `"123456"` (numeric value 123,456, below
the guard range): the date interpretation is skipped and the DOB detector
answers `false`. -/
theorem numeric_guard_skips_out_of_range_witness :
    parse_date fbNone (Value.str "123456") = .ok none ∧
      contains_dob fbNone ⟨2026, 10, 12⟩ (Value.str "123456") = false := by
  have h := numeric_guard_skips_out_of_range fbNone "123456" 123456
    (by decide) (by decide) (by decide)
  exact ⟨h.1, h.2 ⟨2026, 10, 12⟩⟩

/-- Modelled from the spec: the behaviour of the external general-purpose
fallback parser (`dateutil.parser.parse` with `dayfirst=True`, which is not
part of this repository) on the single input needed below — it ignores
surrounding whitespace and reads an eight-digit token as `YYYYMMDD`, so
`" 19800115"` parses to 1980-01-15. -/
def dateutilFrag : String → Option SDate :=
  fun s => if s = " 19800115" then some ⟨1980, 1, 15⟩ else none

/-- Counterexample to C3 as stated: the string `" 19800115"` parses as the
numeric value 19,800,115, which lies strictly between 1,000,000 and
100,000,000, and is not an ANSI full match (leading space); the claim says
the date interpretation must be skipped and the detector must answer
`false`, but the code only skips numbers OUTSIDE that range — in-range
numbers fall through to the fallback parser, which reads this value as
1980-01-15, and the DOB detector (evaluated at 1991-01-01) answers `true`. -/
theorem numeric_guard_counterexample :
    pyFloat " 19800115" = some (19800115 : Rat)
    ∧ ((1000000 : Rat) < 19800115 ∧ (19800115 : Rat) < 100000000)
    ∧ parseAnsiStr " 19800115" = none
    ∧ contains_dob dateutilFrag ⟨1991, 1, 1⟩ (Value.str " 19800115") = true := by
  refine ⟨by decide, by decide, by decide, by decide⟩

/-! ## Name-token detector (`contains_name`, lines 98-110) -/

/-- Word characters of the regex class `\w` (ASCII fragment `[A-Za-z0-9_]`);
`re_words = \W+` splits on maximal runs of the complement. -/
def isWordChar (c : Char) : Bool := c.isAlphanum || c = '_'

/-- Splitting on maximal runs of characters satisfying `p`, with Python
`re.split` boundary semantics: a leading or trailing run contributes an
empty field. The `inRun` flag records whether the previous character was
part of a delimiter run. -/
def splitRunsGo (p : Char → Bool) : Bool → List Char → List Char →
    List (List Char)
  | _, acc, [] => [acc.reverse]
  | inRun, acc, c :: cs =>
    if p c then
      if inRun then splitRunsGo p true acc cs
      else acc.reverse :: splitRunsGo p true [] cs
    else splitRunsGo p false (c :: acc) cs

/-- `re.split(r'\W+', value)` after the lowercasing and digit-blanking of
`contains_name`: lowercase the value, replace every digit with a space, and
split on runs of non-word characters. -/
def nameTokens (s : String) : List String :=
  (splitRunsGo (fun c => !isWordChar c) false []
      ((s.data.map Char.toLower).map (fun c => if c.isDigit then ' ' else c))).map
    (fun l => String.mk l)

/-- `PpiFinder.contains_name`: falsy or non-string values yield the empty
set; otherwise collect, into a set, every token of the lowered, digit-blanked,
`\W+`-split value that is a member of the name corpus. -/
def contains_name (names : Finset String) (v : Value) : Finset String :=
  match v with
  | .str s =>
    if s.data.isEmpty then ∅
    else (nameTokens s).foldl
      (fun found w => if w ∈ names then insert w found else found) ∅
  | _ => ∅

/-- The specification's description of the name detector: the set of tokens
of the lowercased, digit-blanked, non-word-split value that are members of
the corpus (empty for empty or non-string values). -/
def specNameMatches (names : Finset String) (s : String) : Finset String :=
  if s.data.isEmpty then ∅
  else ((nameTokens s).filter (· ∈ names)).toFinset

/-! ## UHL system-number and postcode detectors (lines 112-124)

`re.search` is truthy exactly when a match exists at some position, so both
detectors are modelled as "some suffix of the value starts with a match";
the alternation and optional parts of the patterns become disjunctions. -/

/-- Do the first characters of `l` satisfy the given predicates in order
(in particular, does `l` have at least that many characters)? -/
def matchShape : List (Char → Bool) → List Char → Bool
  | [], _ => true
  | _ :: _, [] => false
  | p :: ps, c :: cs => p c && matchShape ps cs

/-- A match of `re_uhl_s_number`
(`[SRFG]\d{7}|[U]\d{7}.*|LB\d{7}|RTD[\-0-9]*`) starting at `l`: the
trailing `.*` and `[\-0-9]*` match the empty string, so they impose no
constraint. -/
def uhlAt (l : List Char) : Bool :=
  matchShape ((fun c => c = 'S' || c = 'R' || c = 'F' || c = 'G')
      :: List.replicate 7 Char.isDigit) l
  || matchShape ((fun c => c = 'U') :: List.replicate 7 Char.isDigit) l
  || matchShape ((fun c => c = 'L') :: (fun c => c = 'B')
      :: List.replicate 7 Char.isDigit) l
  || matchShape [fun c => c = 'R', fun c => c = 'T', fun c => c = 'D'] l

/-- `PpiFinder.contains_uhl_system_number`: falsy or non-string values are
`False`; otherwise search the value for the pattern. -/
def contains_uhl_system_number (v : Value) : Bool :=
  match v with
  | .str s => if s.data.isEmpty then false else s.data.tails.any uhlAt
  | _ => false

/-- The regex whitespace class `\s` (ASCII fragment). -/
def isSpaceClass (c : Char) : Bool :=
  c = ' ' || c = '\t' || c = '\n' || c = '\r' || c = '\x0b' || c = '\x0c'

/-- The character class `[A-Ha-hJ-Yj-y]` of `re_postcodes`. -/
def isAHJY (c : Char) : Bool :=
  ('A' ≤ c && c ≤ 'H') || ('J' ≤ c && c ≤ 'Y')
    || ('a' ≤ c && c ≤ 'h') || ('j' ≤ c && c ≤ 'y')

/-- The inward part `\s?[0-9][A-Za-z]{2}` of `re_postcodes`. -/
def pcInward (l : List Char) : Bool :=
  matchShape [Char.isDigit, Char.isAlpha, Char.isAlpha] l
  || matchShape [isSpaceClass, Char.isDigit, Char.isAlpha, Char.isAlpha] l

/-- A match of the general outward+inward alternative of `re_postcodes`
starting at `l`: outward is one of `A9`, `A99`, `AA9`, `AA99`, `A9A`,
`AA9A` (letter classes as in the pattern), followed by the inward part. -/
def pcOutwardInward (l : List Char) : Bool :=
  (matchShape [Char.isAlpha, Char.isDigit] l && pcInward (l.drop 2))
  || (matchShape [Char.isAlpha, Char.isDigit, Char.isDigit] l && pcInward (l.drop 3))
  || (matchShape [Char.isAlpha, isAHJY, Char.isDigit] l && pcInward (l.drop 3))
  || (matchShape [Char.isAlpha, isAHJY, Char.isDigit, Char.isDigit] l
      && pcInward (l.drop 4))
  || (matchShape [Char.isAlpha, Char.isDigit, Char.isAlpha] l && pcInward (l.drop 3))
  || (matchShape [Char.isAlpha, isAHJY, Char.isDigit, Char.isAlpha] l
      && pcInward (l.drop 4))

/-- A match of the reserved alternative `[Gg][Ii][Rr] ?0[Aa]{2}` of
`re_postcodes` starting at `l`. -/
def pcGirAt (l : List Char) : Bool :=
  matchShape [fun c => c = 'G' || c = 'g', fun c => c = 'I' || c = 'i',
    fun c => c = 'R' || c = 'r', fun c => c = '0',
    fun c => c = 'A' || c = 'a', fun c => c = 'A' || c = 'a'] l
  || matchShape [fun c => c = 'G' || c = 'g', fun c => c = 'I' || c = 'i',
    fun c => c = 'R' || c = 'r', fun c => c = ' ', fun c => c = '0',
    fun c => c = 'A' || c = 'a', fun c => c = 'A' || c = 'a'] l

/-- `PpiFinder.contains_postcode`: falsy or non-string values are `False`;
otherwise search the value for `re_postcodes`. -/
def contains_postcode (v : Value) : Bool :=
  match v with
  | .str s =>
    if s.data.isEmpty then false
    else s.data.tails.any (fun l => pcGirAt l || pcOutwardInward l)
  | _ => false

/-! ## NHS-number detector (`contains_nhs_number`, lines 126-142)

`re_nhs_numbers = \b(\d{10}|\d{3}-\d{3}-\d{4}|\d{3} \d{3} \d{4})\b` is
scanned with `findall`: the leftmost match is taken, scanning resumes after
its end, and matches never overlap. The three alternatives are mutually
exclusive at any one position, so alternative order does not matter. -/

/-- The word-boundary test before a digit: start of string or a preceding
non-word character (`prev` is the character immediately before the current
position). -/
def boundaryBefore : Option Char → Bool
  | none => true
  | some c => !isWordChar c

/-- The word-boundary test after a match: end of string or a following
non-word character. -/
def boundaryAfterL : List Char → Bool
  | [] => true
  | c :: _ => !isWordChar c

/-- Length of the `re_nhs_numbers` match starting exactly here (with its
trailing word boundary), if any: 10 for `\d{10}`, 12 for the two grouped
forms. -/
def matchNhsLen (l : List Char) : Option Nat :=
  if matchShape (List.replicate 10 Char.isDigit) l && boundaryAfterL (l.drop 10) then
    some 10
  else if matchShape (List.replicate 3 Char.isDigit ++ [fun c => c == '-']
      ++ List.replicate 3 Char.isDigit ++ [fun c => c == '-']
      ++ List.replicate 4 Char.isDigit) l && boundaryAfterL (l.drop 12) then
    some 12
  else if matchShape (List.replicate 3 Char.isDigit ++ [fun c => c == ' ']
      ++ List.replicate 3 Char.isDigit ++ [fun c => c == ' ']
      ++ List.replicate 4 Char.isDigit) l && boundaryAfterL (l.drop 12) then
    some 12
  else none

/-- The `findall` scan for `re_nhs_numbers`: try each position left to
right, requiring the leading word boundary, and resume after the end of
each match. The fuel argument (instantiated with the list length) only
makes the recursion structural; every step consumes at least one
character. -/
def nhsScanFuel : Nat → Option Char → List Char → List (List Char)
  | 0, _, _ => []
  | _ + 1, _, [] => []
  | fuel + 1, prev, c :: cs =>
    if boundaryBefore prev then
      match matchNhsLen (c :: cs) with
      | some n =>
        (c :: cs).take n
          :: nhsScanFuel fuel (some (((c :: cs).take n).getLastD ' '))
            ((c :: cs).drop n)
      | none => nhsScanFuel fuel (some c) cs
    else nhsScanFuel fuel (some c) cs

/-- `self.re_nhs_numbers.findall(value)`. -/
def nhsCandidates (s : String) : List (List Char) :=
  nhsScanFuel s.data.length none s.data

/-- `self.re_nhs_dividers.sub('', m)`: strip hyphens and spaces. -/
def stripDividers (m : List Char) : List Char :=
  m.filter (fun c => !(c = '-' || c = ' '))

/-- `PpiFinder.contains_nhs_number`: falsy values are `False`; non-string
values are converted with `str`; the value matches when any extracted
candidate, after divider stripping, passes the checksum comparison. -/
def contains_nhs_number (v : Value) : Bool :=
  if !pyTruthy v then false
  else (nhsCandidates (pyStr v)).any
    (fun m => nhsCandidateAccepted (stripDividers m))

lemma foldl_insert_filter (names : Finset String) (l : List String)
    (acc : Finset String) :
    l.foldl (fun found w => if w ∈ names then insert w found else found) acc
      = acc ∪ (l.filter (· ∈ names)).toFinset := by
  induction l generalizing acc with
  | nil => simp
  | cons w l ih =>
    by_cases hw : w ∈ names
    · rw [List.foldl_cons, if_pos hw, ih]
      ext a
      simp [List.filter_cons, hw]
    · rw [List.foldl_cons, if_neg hw, ih]
      ext a
      simp [List.filter_cons, hw]

/-- C6: the name detector returns exactly the set of tokens — obtained by
lowercasing the value, replacing every digit with whitespace and splitting
on runs of non-word characters — that are members of the name corpus.
In particular `"Smith3"` matches the corpus entry `"smith"`, and matching is
whole-token: `"blacksmith"` does not match `"smith"`. -/
theorem contains_name_spec :
    (∀ (names : Finset String) (s : String),
      contains_name names (Value.str s) = specNameMatches names s)
    ∧ (∀ names : Finset String, contains_name names Value.null = ∅)
    ∧ contains_name {"smith"} (Value.str "Smith3") = {"smith"}
    ∧ contains_name {"smith"} (Value.str "blacksmith") = ∅ := by
  refine ⟨fun names s => ?_, fun names => rfl, by decide, by decide⟩
  unfold contains_name specNameMatches
  by_cases he : s.data.isEmpty
  · simp [he]
  · simp only [he, if_neg, Bool.false_eq_true, not_false_eq_true]
    rw [foldl_insert_filter]
    simp

/-! ## Scan engine (`PpiFinder.analyse`, lines 66-96)

A row record is an association list from column name to cell value; Python
`row[c]` raises `KeyError` when the key is missing, modelled as
`Except.error`. The findings dictionary is modelled as a total function
from column names (columns outside the selection keep the empty record,
which the Python dictionary simply does not mention). The periodic progress
`print` is a side effect outside the findings and is not modelled. -/

/-- Per-column findings: one ordered evidence list per evidence-bearing
category plus the set of distinct matched name tokens. -/
structure ColFindings where
  uhl : List (Nat × Value)
  postcode : List (Nat × Value)
  nhs : List (Nat × Value)
  dob : List (Nat × Value)
  names : Finset String

/-- The empty per-column findings record created at scan start. -/
def emptyCol : ColFindings := ⟨[], [], [], [], ∅⟩

/-- Python `self.columns or csv.fieldnames` (line 68): `None` and the empty
list are falsy, so both select every column of the schema. -/
def pyOr (columns : Option (List String)) (fieldnames : List String) :
    List String :=
  match columns with
  | none => fieldnames
  | some cs => if cs = [] then fieldnames else cs

/-- Python `row[c]`: the value under key `c`, or `KeyError`. -/
def dictGet (row : List (String × Value)) (c : String) : Except Unit Value :=
  match row.find? (fun p => p.1 == c) with
  | some p => .ok p.2
  | none => .error ()

/-- The body of the inner loop of `analyse` (lines 82-94) for one cell:
fetch the value (a missing key raises), run every detector, and append the
findings of row `i` to column `c`. -/
def processCell (fb : String → Option SDate) (today : SDate)
    (names : Finset String) (i : Nat) (row : List (String × Value))
    (errors : String → ColFindings) (c : String) :
    Except Unit (String → ColFindings) :=
  match dictGet row c with
  | .error e => .error e
  | .ok value =>
    let e := errors c
    let e := if contains_uhl_system_number value then
      { e with uhl := e.uhl ++ [(i, value)] } else e
    let e := if contains_postcode value then
      { e with postcode := e.postcode ++ [(i, value)] } else e
    let e := if contains_nhs_number value then
      { e with nhs := e.nhs ++ [(i, value)] } else e
    let e := if contains_dob fb today value then
      { e with dob := e.dob ++ [(i, value)] } else e
    let e := { e with names := e.names ∪ contains_name names value }
    .ok (fun c2 => if c2 = c then e else errors c2)

/-- The inner loop `for c in cols` of `analyse` for one row. -/
def processCells (fb : String → Option SDate) (today : SDate)
    (names : Finset String) (i : Nat) (row : List (String × Value)) :
    List String → (String → ColFindings) → Except Unit (String → ColFindings)
  | [], errors => .ok errors
  | c :: cs, errors =>
    match processCell fb today names i row errors c with
    | .error e => .error e
    | .ok errors2 => processCells fb today names i row cs errors2

/-- The outer loop `for i, row in enumerate(csv)` of `analyse`. -/
def analyseRows (fb : String → Option SDate) (today : SDate)
    (names : Finset String) (cols : List String) :
    Nat → List (List (String × Value)) → (String → ColFindings) →
      Except Unit (String → ColFindings)
  | _, [], errors => .ok errors
  | i, row :: rest, errors =>
    match processCells fb today names i row cols errors with
    | .error e => .error e
    | .ok errors2 => analyseRows fb today names cols (i + 1) rest errors2

/-- `PpiFinder.analyse`: choose the column selection, create the empty
findings for every selected column, and scan the rows in order from index
0. `fb` is the fallback date parser, `today` the evaluation date (from
`datetime.utcnow()`), `names` the loaded name corpus. -/
def analyse (fb : String → Option SDate) (today : SDate)
    (columns : Option (List String)) (fieldnames : List String)
    (names : Finset String) (rows : List (List (String × Value))) :
    Except Unit (String → ColFindings) :=
  analyseRows fb today names (pyOr columns fieldnames) 0 rows (fun _ => emptyCol)

/-- C10: supplying the empty list as the column selection scans every
column of the schema, exactly as if no selection had been supplied — the
Python `or` on line 68 treats the empty list like `None`. -/
theorem analyse_empty_selection_scans_all (fb : String → Option SDate)
    (today : SDate) (fieldnames : List String) (names : Finset String)
    (rows : List (List (String × Value))) :
    analyse fb today (some []) fieldnames names rows
      = analyse fb today none fieldnames names rows := rfl

/-- C8 (amended): the scan is a deterministic function of the row source,
the corpus, the column selection, the fallback parser AND the evaluation
date: two runs with the same evaluation date produce identical findings.
(The date is a genuine input: `contains_dob` reads `datetime.utcnow()`.) -/
theorem analyse_deterministic (fb : String → Option SDate) (t1 t2 : SDate)
    (columns : Option (List String)) (fieldnames : List String)
    (names : Finset String) (rows : List (List (String × Value)))
    (h : t1 = t2) :
    analyse fb t1 columns fieldnames names rows
      = analyse fb t2 columns fieldnames names rows := by rw [h]

/-- Witness for the amended C8: two same-date runs on a concrete dataset
agree. -/
theorem analyse_deterministic_witness :
    analyse fbNone ⟨2026, 10, 12⟩ none ["dob"] ∅ [[("dob", Value.str "19800115")]]
      = analyse fbNone ⟨2026, 10, 12⟩ none ["dob"] ∅
          [[("dob", Value.str "19800115")]] :=
  analyse_deterministic fbNone ⟨2026, 10, 12⟩ ⟨2026, 10, 12⟩ none ["dob"] ∅
    [[("dob", Value.str "19800115")]] rfl

/-- Counterexample to C8 as stated: the same rows (one cell `19800115`) and
the same (empty) corpus scanned at evaluation date 1991-01-01 yield a
Date-of-Birth finding at row 0, but scanned at 1985-01-01 they yield none —
the detector compares against `utcnow()`, a hidden input not among "the
same rows and the same corpus". -/
theorem analyse_clock_counterexample :
    ((analyse fbNone ⟨1991, 1, 1⟩ none ["dob"] ∅
        [[("dob", Value.str "19800115")]]).toOption.map
      (fun r => ((r "dob").dob.map Prod.fst)))
    ≠ ((analyse fbNone ⟨1985, 1, 1⟩ none ["dob"] ∅
        [[("dob", Value.str "19800115")]]).toOption.map
      (fun r => ((r "dob").dob.map Prod.fst))) := by decide

/-- Truth value of an `Except` being a success. -/
def isOkE {α : Type} (e : Except Unit α) : Bool :=
  match e with
  | .ok _ => true
  | .error _ => false

lemma processCell_isOk (fb : String → Option SDate) (today : SDate)
    (names : Finset String) (i : Nat) (row : List (String × Value))
    (errors : String → ColFindings) (c : String) :
    isOkE (processCell fb today names i row errors c)
      = (row.find? (fun p => p.1 == c)).isSome := by
  cases hf : row.find? (fun p => p.1 == c) with
  | none => simp [processCell, dictGet, hf, isOkE]
  | some p => simp [processCell, dictGet, hf, isOkE]

lemma processCells_isOk (fb : String → Option SDate) (today : SDate)
    (names : Finset String) (i : Nat) (row : List (String × Value)) :
    ∀ (cols : List String) (errors : String → ColFindings),
    (isOkE (processCells fb today names i row cols errors) = true ↔
      ∀ c ∈ cols, (row.find? (fun p => p.1 == c)).isSome = true) := by
  intro cols
  induction cols with
  | nil =>
    intro errors
    simp [processCells, isOkE]
  | cons c cs ih =>
    intro errors
    have hiff := processCell_isOk fb today names i row errors c
    cases hp : processCell fb today names i row errors c with
    | error e =>
      rw [hp] at hiff
      simp only [isOkE] at hiff
      simp only [processCells, hp, isOkE, Bool.false_eq_true, false_iff]
      intro hall
      have := hall c (by simp)
      rw [this] at hiff
      exact Bool.noConfusion hiff
    | ok errors2 =>
      rw [hp] at hiff
      simp only [isOkE] at hiff
      have hc : (row.find? (fun p => p.1 == c)).isSome = true := hiff.symm
      simp only [processCells, hp]
      rw [ih errors2]
      constructor
      · intro hall c2 hc2
        rcases List.mem_cons.mp hc2 with h | h
        · rw [h]; exact hc
        · exact hall c2 h
      · intro hall c2 hc2
        exact hall c2 (List.mem_cons_of_mem _ hc2)

lemma analyseRows_isOk (fb : String → Option SDate) (today : SDate)
    (names : Finset String) (cols : List String) :
    ∀ (rows : List (List (String × Value))) (i : Nat)
      (errors : String → ColFindings),
    (isOkE (analyseRows fb today names cols i rows errors) = true ↔
      ∀ row ∈ rows, ∀ c ∈ cols,
        (row.find? (fun p => p.1 == c)).isSome = true) := by
  intro rows
  induction rows with
  | nil =>
    intro i errors
    simp [analyseRows, isOkE]
  | cons row rest ih =>
    intro i errors
    cases hp : processCells fb today names i row cols errors with
    | error e =>
      have hrow : ¬∀ c ∈ cols, (row.find? (fun p => p.1 == c)).isSome = true := by
        intro hall
        have := (processCells_isOk fb today names i row cols errors).mpr hall
        rw [hp] at this
        exact Bool.noConfusion this
      simp only [analyseRows, hp, isOkE, Bool.false_eq_true, false_iff]
      intro hall
      exact hrow (hall row (by simp))
    | ok errors2 =>
      have hrow : ∀ c ∈ cols, (row.find? (fun p => p.1 == c)).isSome = true := by
        have := (processCells_isOk fb today names i row cols errors).mp
        rw [hp] at this
        exact this rfl
      simp only [analyseRows, hp, ih (i + 1) errors2]
      constructor
      · intro hrest
        intro row2 hr2
        rcases List.mem_cons.mp hr2 with h | h
        · rw [h]; exact hrow
        · exact hrest row2 h
      · intro hall row2 hr2
        exact hall row2 (List.mem_cons_of_mem _ hr2)

/-- C5 (amended): the scan completes exactly when every row carries every
selected column key — a record actually lacking a selected key makes
`row[c]` raise and the scan fail (it is NOT treated as absent); a cell that
is present but null is handled by every detector as an ordinary no-match,
recording no finding. -/
theorem analyse_missing_key (fb : String → Option SDate) (today : SDate)
    (columns : Option (List String)) (fieldnames : List String)
    (names : Finset String) (rows : List (List (String × Value))) :
    (isOkE (analyse fb today columns fieldnames names rows) = true ↔
      ∀ row ∈ rows, ∀ c ∈ pyOr columns fieldnames,
        (row.find? (fun p => p.1 == c)).isSome = true)
    ∧ (contains_uhl_system_number Value.null = false
      ∧ contains_postcode Value.null = false
      ∧ contains_nhs_number Value.null = false
      ∧ (∀ (fb2 : String → Option SDate) (t2 : SDate),
          contains_dob fb2 t2 Value.null = false)
      ∧ ∀ ns : Finset String, contains_name ns Value.null = ∅) :=
  ⟨analyseRows_isOk fb today names (pyOr columns fieldnames) rows 0
      (fun _ => emptyCol),
    rfl, rfl, rfl, fun _ _ => rfl, fun _ => rfl⟩

/-- Counterexample to C5 as stated: selecting columns `a` and `b` while the
single row only carries key `a` does not yield a completed scan with a null
cell — the scan fails with the propagated key error. -/
theorem analyse_missing_key_counterexample :
    analyse fbNone ⟨2026, 10, 12⟩ (some ["a", "b"]) ["a", "b"] ∅
      [[("a", Value.str "x")]] = .error () := rfl

def incrTo (n : Nat) (l : List (Nat × Value)) : Prop :=
  List.Pairwise (· < ·) (l.map Prod.fst) ∧ ∀ x ∈ l, x.1 < n

def colInv (n : Nat) (e : ColFindings) : Prop :=
  incrTo n e.uhl ∧ incrTo n e.postcode ∧ incrTo n e.nhs ∧ incrTo n e.dob

lemma incrTo_mono {n m : Nat} {l : List (Nat × Value)} (h : incrTo n l)
    (hnm : n ≤ m) : incrTo m l :=
  ⟨h.1, fun x hx => lt_of_lt_of_le (h.2 x hx) hnm⟩

lemma colInv_mono {n m : Nat} {e : ColFindings} (h : colInv n e) (hnm : n ≤ m) :
    colInv m e :=
  ⟨incrTo_mono h.1 hnm, incrTo_mono h.2.1 hnm, incrTo_mono h.2.2.1 hnm,
    incrTo_mono h.2.2.2 hnm⟩

lemma incrTo_append {n : Nat} {l : List (Nat × Value)} (h : incrTo n l)
    (v : Value) : incrTo (n + 1) (l ++ [(n, v)]) := by
  obtain ⟨hp, hb⟩ := h
  refine ⟨?_, ?_⟩
  · rw [List.map_append, List.pairwise_append]
    refine ⟨hp, by simp, ?_⟩
    intro a ha b hbm
    simp only [List.map_cons, List.map_nil, List.mem_singleton] at hbm
    subst hbm
    obtain ⟨x, hx, rfl⟩ := List.mem_map.mp ha
    exact hb x hx
  · intro x hx
    rcases List.mem_append.mp hx with h1 | h1
    · exact Nat.lt_succ_of_lt (hb x h1)
    · simp only [List.mem_singleton] at h1
      subst h1
      exact Nat.lt_succ_self n

lemma processCell_inv (fb : String → Option SDate) (today : SDate)
    (names : Finset String) (i : Nat) (row : List (String × Value))
    (errors : String → ColFindings) (c : String)
    (errors2 : String → ColFindings)
    (hok : processCell fb today names i row errors c = .ok errors2)
    (hc : colInv i (errors c)) (hall : ∀ c2, colInv (i + 1) (errors c2)) :
    (∀ c2, colInv (i + 1) (errors2 c2)) ∧ ∀ c2, c2 ≠ c → errors2 c2 = errors c2 := by
  cases hf : dictGet row c with
  | error e =>
    simp only [processCell, hf] at hok
    exact Except.noConfusion hok
  | ok value =>
    simp only [processCell, hf] at hok
    injection hok with hok
    obtain ⟨h1, h2, h3, h4⟩ := hc
    constructor
    · intro c2
      rw [← hok]
      by_cases he : c2 = c
      · simp only [he, if_pos]
        by_cases b1 : contains_uhl_system_number value = true <;>
          by_cases b2 : contains_postcode value = true <;>
            by_cases b3 : contains_nhs_number value = true <;>
              by_cases b4 : contains_dob fb today value = true <;>
                simp only [b1, b2, b3, b4, if_true, if_false, if_pos, if_neg,
                  not_false_iff, Bool.false_eq_true] <;>
                  exact ⟨by first
                      | exact incrTo_append h1 value
                      | exact incrTo_mono h1 (Nat.le_succ i),
                    by first
                      | exact incrTo_append h2 value
                      | exact incrTo_mono h2 (Nat.le_succ i),
                    by first
                      | exact incrTo_append h3 value
                      | exact incrTo_mono h3 (Nat.le_succ i),
                    by first
                      | exact incrTo_append h4 value
                      | exact incrTo_mono h4 (Nat.le_succ i)⟩
      · simp only [if_neg he]
        exact hall c2
    · intro c2 hne
      rw [← hok]
      simp only [if_neg hne]

lemma processCells_inv (fb : String → Option SDate) (today : SDate)
    (names : Finset String) (i : Nat) (row : List (String × Value)) :
    ∀ (cols : List String) (errors errors2 : String → ColFindings),
    cols.Nodup →
    (∀ c ∈ cols, colInv i (errors c)) →
    (∀ c2, colInv (i + 1) (errors c2)) →
    processCells fb today names i row cols errors = .ok errors2 →
    ∀ c2, colInv (i + 1) (errors2 c2) := by
  intro cols
  induction cols with
  | nil =>
    intro errors errors2 _ _ hall hok
    simp only [processCells] at hok
    injection hok with h
    subst h
    exact hall
  | cons c cs ih =>
    intro errors errors2 hnd hcols hall hok
    cases hp : processCell fb today names i row errors c with
    | error e =>
      simp only [processCells, hp] at hok
      exact Except.noConfusion hok
    | ok errs3 =>
      simp only [processCells, hp] at hok
      have hinv := processCell_inv fb today names i row errors c errs3 hp
        (hcols c (by simp)) hall
      refine ih errs3 errors2 (List.nodup_cons.mp hnd).2 ?_ hinv.1 hok
      intro c2 hc2
      rw [hinv.2 c2 ?_]
      · exact hcols c2 (by simp [hc2])
      · intro heq
        subst heq
        exact (List.nodup_cons.mp hnd).1 hc2

lemma analyseRows_inv (fb : String → Option SDate) (today : SDate)
    (names : Finset String) (cols : List String) (hnd : cols.Nodup) :
    ∀ (rows : List (List (String × Value))) (i : Nat)
      (errors r : String → ColFindings),
    (∀ c2, colInv i (errors c2)) →
    analyseRows fb today names cols i rows errors = .ok r →
    ∀ c2, colInv (i + rows.length) (r c2) := by
  intro rows
  induction rows with
  | nil =>
    intro i errors r hall hok
    simp only [analyseRows] at hok
    injection hok with h
    subst h
    simpa using hall
  | cons row rest ih =>
    intro i errors r hall hok
    cases hp : processCells fb today names i row cols errors with
    | error e =>
      simp only [analyseRows, hp] at hok
      exact Except.noConfusion hok
    | ok errors2 =>
      simp only [analyseRows, hp] at hok
      have h2 : ∀ c2, colInv (i + 1) (errors2 c2) :=
        processCells_inv fb today names i row cols errors errors2 hnd
          (fun c _ => hall c) (fun c2 => colInv_mono (hall c2) (Nat.le_succ i)) hp
      have h3 := ih (i + 1) errors2 r h2 hok
      intro c2
      have hlen : i + (row :: rest).length = (i + 1) + rest.length := by
        simp only [List.length_cons]
        omega
      rw [hlen]
      exact h3 c2

/-- C9 (amended): after any scan with pairwise-distinct selected columns,
the row indices in every column's findings list, for every evidence-bearing
category, are strictly increasing. The proof carries the invariant through
every cell and row step (and the statement, quantifying over arbitrary
`rows`, applies to every prefix of the row source, i.e. to every
intermediate state of the scan). -/
theorem analyse_row_indices_increasing (fb : String → Option SDate)
    (today : SDate) (columns : Option (List String)) (fieldnames : List String)
    (names : Finset String) (rows : List (List (String × Value)))
    (r : String → ColFindings)
    (hnd : (pyOr columns fieldnames).Nodup)
    (hok : analyse fb today columns fieldnames names rows = .ok r)
    (c : String) :
    List.Pairwise (· < ·) ((r c).uhl.map Prod.fst)
    ∧ List.Pairwise (· < ·) ((r c).postcode.map Prod.fst)
    ∧ List.Pairwise (· < ·) ((r c).nhs.map Prod.fst)
    ∧ List.Pairwise (· < ·) ((r c).dob.map Prod.fst) := by
  have h0 : ∀ c2 : String, colInv 0 ((fun _ => emptyCol) c2) := by
    intro c2
    unfold colInv incrTo emptyCol
    simp
  have h := analyseRows_inv fb today names (pyOr columns fieldnames) hnd rows 0
    (fun _ => emptyCol) r h0 hok
  obtain ⟨h1, h2, h3, h4⟩ := h c
  exact ⟨h1.1, h2.1, h3.1, h4.1⟩

/-- Witness for the amended C9: two rows both carrying a valid NHS number
produce the strictly increasing index sequence [0, 1]. -/
theorem analyse_row_indices_increasing_witness :
    List.Pairwise (· < ·)
      ((((analyse fbNone ⟨2026, 10, 12⟩ (some ["id"]) ["id"] ∅
          [[("id", Value.str "9434765919")], [("id", Value.str "9434765919")]]
        ).toOption.getD (fun _ => emptyCol)) "id").nhs.map Prod.fst) := by
  have h : analyse fbNone ⟨2026, 10, 12⟩ (some ["id"]) ["id"] ∅
      [[("id", Value.str "9434765919")], [("id", Value.str "9434765919")]]
    = .ok ((analyse fbNone ⟨2026, 10, 12⟩ (some ["id"]) ["id"] ∅
      [[("id", Value.str "9434765919")], [("id", Value.str "9434765919")]]
      ).toOption.getD (fun _ => emptyCol)) := rfl
  exact (analyse_row_indices_increasing fbNone ⟨2026, 10, 12⟩ (some ["id"]) ["id"] ∅
    [[("id", Value.str "9434765919")], [("id", Value.str "9434765919")]] _
    (by decide) h "id").2.2.1

/-- Counterexample to C9 as stated: with the duplicated column selection
`["a", "a"]` (which the command line `-c a a` or a duplicated CSV header
produces), a single row holding a valid NHS number is recorded twice with
the same row index — the findings index sequence [0, 0] of column `a` is
not strictly increasing. -/
theorem analyse_row_indices_counterexample :
    ((analyse fbNone ⟨2026, 10, 12⟩ (some ["a", "a"]) ["a"] ∅
        [[("a", Value.str "9434765919")]]).toOption.map
      (fun r => ((r "a").nhs.map Prod.fst)) = some [0, 0])
    ∧ ¬ List.Pairwise (· < ·) [0, 0] := by
  refine ⟨by decide, by decide⟩
